import Mathlib

/-!
Verification of the author-list generator `a2tex.py` (HSF EPPSU 2025 paper).

The development shallowly embeds the program's core: the affiliation
registry (`AffiliationList` with `add` / `get_id`), the text formatter
(`firstnames_to_initials`, `latex_escape`, whitespace substitution of the
display name), the per-author LaTeX line and the arXiv author line, and the
exit-status constants.  Strings are modelled as Lean `String`s (lists of
characters); Python regular-expression operations over single-character
patterns are modelled as character-by-character scans, which is exactly how
`re.sub` / `re.split` behave for such patterns.  The character set of
Python's regex class `\s` is modelled by its ASCII part, which covers every
input considered here.
-/

/-- ASCII fragment of the character class matched by the regex `\s` and by
`str.strip` in Python: space, tab, newline, carriage return, vertical tab,
form feed. -/
def pyIsSpace (c : Char) : Bool :=
  c = ' ' || c = '\t' || c = '\n' || c = '\r' || c = '\x0b' || c = '\x0c'

/-- Translation of Python's `chr(ord('a') + n)` used by
`AffiliationList.get_id` (src/a2tex.py lines 92-93). -/
def letterChar (n : Nat) : Char :=
  Char.ofNat (97 + n)

/-- Letter-mode index string built by `AffiliationList.get_id` for a
zero-based position `p` (src/a2tex.py lines 88-93): `high_order = p // 26`;
when `high_order > 0` the id starts with the character for `high_order - 1`;
the character for `p % 26` is then appended. -/
def letterId (p : Nat) : String :=
  let high := p / 26
  if high > 0 then
    String.mk [letterChar (high - 1), letterChar (p % 26)]
  else
    String.mk [letterChar (p % 26)]

/-- Affiliation index value: a letter string in letter mode, a 1-based
number in numeric mode (Python returns `str` or `int` from `get_id`). -/
inductive AffilId where
  | letter (s : String)
  | number (n : Nat)
deriving DecidableEq, Repr

/-- Index of the first occurrence of `a` in a list, `none` when absent:
the model of Python's `list.index` wrapped in `try/except ValueError`
(src/a2tex.py lines 83-86). -/
def findIndex (a : String) : List String → Option Nat
  | [] => none
  | x :: xs => if x = a then some 0 else (findIndex a xs).map (· + 1)

/-- State of `AffiliationList` (src/a2tex.py lines 55-63): the backing
list `_list` and the `_index_letter` mode flag. -/
structure AffiliationList where
  _list : List String
  _index_letter : Bool
deriving DecidableEq, Repr

/-- Translation of `AffiliationList.get_id` (src/a2tex.py lines 75-97):
look up the first occurrence of the affiliation (absent gives `None`),
then derive the letter id or the 1-based numeric id from that position. -/
def AffiliationList.get_id (al : AffiliationList) (affiliation : String) :
    Option AffilId :=
  match findIndex affiliation al._list with
  | none => none
  | some p =>
    if al._index_letter then some (AffilId.letter (letterId p))
    else some (AffilId.number (p + 1))

/-- Translation of `AffiliationList.add` (src/a2tex.py lines 65-72):
append the affiliation to `_list` unconditionally, then return
`get_id(affiliation)` on the updated state.  The result pairs the new
state with the returned id. -/
def AffiliationList.add (al : AffiliationList) (affiliation : String) :
    AffiliationList × Option AffilId :=
  (⟨al._list ++ [affiliation], al._index_letter⟩,
   AffiliationList.get_id ⟨al._list ++ [affiliation], al._index_letter⟩ affiliation)

/-- Fresh registry as built by `AffiliationList.__init__`
(src/a2tex.py lines 56-63). -/
def emptyAffiliationList (index_letter : Bool) : AffiliationList :=
  ⟨[], index_letter⟩

/-- Registry state reached from the empty registry by the given sequence
of `add` calls; every state the program can put the registry in has this
shape. -/
def buildRegistry (index_letter : Bool) (adds : List String) :
    AffiliationList :=
  adds.foldl (fun al a => (al.add a).1) (emptyAffiliationList index_letter)

theorem foldl_add_eq (adds : List String) :
    ∀ al : AffiliationList,
      adds.foldl (fun al a => (al.add a).1) al =
        ⟨al._list ++ adds, al._index_letter⟩ := by
  induction adds with
  | nil => intro al; rw [List.foldl_nil, List.append_nil]
  | cons a rest ih =>
    intro al
    rw [List.foldl_cons, ih]
    simp [AffiliationList.add]

theorem buildRegistry_eq (b : Bool) (adds : List String) :
    buildRegistry b adds = ⟨adds, b⟩ := by
  simp [buildRegistry, foldl_add_eq, emptyAffiliationList]

theorem findIndex_eq_none (a : String) :
    ∀ l : List String, findIndex a l = none ↔ a ∉ l := by
  intro l
  induction l with
  | nil => simp [findIndex]
  | cons x xs ih =>
    by_cases hx : x = a
    · subst hx
      simp [findIndex]
    · simp only [findIndex, if_neg hx]
      constructor
      · intro h hmem
        rcases List.mem_cons.mp hmem with h1 | h1
        · exact hx h1.symm
        · cases hfi : findIndex a xs with
          | none => exact (ih.mp hfi) h1
          | some p => rw [hfi] at h; simp at h
      · intro h
        have hxs : a ∉ xs := fun hc => h (List.mem_cons_of_mem x hc)
        simp [ih.mpr hxs]

theorem findIndex_append_of_mem (a : String) :
    ∀ (l l' : List String), a ∈ l → findIndex a (l ++ l') = findIndex a l := by
  intro l
  induction l with
  | nil => intro l' h; simp at h
  | cons x xs ih =>
    intro l' h
    by_cases hx : x = a
    · simp [findIndex, hx]
    · have hmem : a ∈ xs := by
        rcases List.mem_cons.mp h with h1 | h1
        · exact absurd h1.symm hx
        · exact h1
      simp [findIndex, hx, ih l' hmem]

theorem findIndex_append_self (a : String) :
    ∀ l : List String, a ∉ l → findIndex a (l ++ [a]) = some l.length := by
  intro l
  induction l with
  | nil => simp [findIndex]
  | cons x xs ih =>
    intro h
    have hx : ¬ x = a := fun hc => h (by simp [hc])
    have hxs : a ∉ xs := fun hc => h (List.mem_cons_of_mem x hc)
    simp [findIndex, hx, ih hxs]

/-- C1: in letter mode the index for zero-based position `p` is the
bijective base-26 encoding: a single letter for `p ≤ 25`, and for
`p ≥ 26` the letter for `p / 26 - 1` followed by the letter for `p % 26`,
with `letterChar` mapping 0 to 'a' and 25 to 'z'; in particular positions
0, 1, 25, 26, 27, 51, 52 yield a, b, z, aa, ab, az, ba. -/
theorem letterId_bijective_base26 :
    (∀ p : Nat, p ≤ 25 → letterId p = String.mk [letterChar p]) ∧
    (∀ p : Nat, 26 ≤ p →
      letterId p = String.mk [letterChar (p / 26 - 1), letterChar (p % 26)]) ∧
    letterChar 0 = 'a' ∧ letterChar 25 = 'z' ∧
    letterId 0 = "a" ∧ letterId 1 = "b" ∧ letterId 25 = "z" ∧
    letterId 26 = "aa" ∧ letterId 27 = "ab" ∧ letterId 51 = "az" ∧
    letterId 52 = "ba" := by
  refine ⟨?_, ?_, by decide, by decide, by decide, by decide, by decide,
    by decide, by decide, by decide, by decide⟩
  · intro p hp
    have h0 : p / 26 = 0 := Nat.div_eq_of_lt (by omega)
    have hm : p % 26 = p := Nat.mod_eq_of_lt (by omega)
    simp [letterId, h0, hm]
  · intro p hp
    have h0 : 0 < p / 26 := Nat.div_pos hp (by norm_num)
    simp [letterId, h0]

/-- Concrete witness for `letterId_bijective_base26`: instantiates both
quantified parts at positions 3 and 30. -/
theorem letterId_bijective_base26_witness :
    letterId 3 = String.mk [letterChar 3] ∧
    letterId 30 = String.mk [letterChar (30 / 26 - 1), letterChar (30 % 26)] :=
  ⟨letterId_bijective_base26.1 3 (by decide),
   letterId_bijective_base26.2.1 30 (by decide)⟩

/-- C2: on any reachable registry state, `get_id` returns `none` exactly
when the string has never been passed to `add`, and once added the id it
returns is unchanged by any later sequence of `add` calls. -/
theorem get_id_absent_iff_never_added (b : Bool) (adds more : List String)
    (a : String) :
    ((buildRegistry b adds).get_id a = none ↔ a ∉ adds) ∧
    (a ∈ adds →
      (buildRegistry b (adds ++ more)).get_id a =
        (buildRegistry b adds).get_id a) := by
  constructor
  · rw [buildRegistry_eq]
    unfold AffiliationList.get_id
    cases hfi : findIndex a adds with
    | none => simpa using (findIndex_eq_none a adds).mp hfi
    | some p =>
      have : a ∈ adds := by
        by_contra hmem
        rw [(findIndex_eq_none a adds).mpr hmem] at hfi
        cases hfi
      by_cases hb : b <;> simp [hb, this]
  · intro hmem
    rw [buildRegistry_eq, buildRegistry_eq]
    unfold AffiliationList.get_id
    rw [findIndex_append_of_mem a adds more hmem]

/-- Concrete witness for `get_id_absent_iff_never_added`: the id of "u" in
a two-entry registry is unchanged after a third entry is added. -/
theorem get_id_absent_iff_never_added_witness :
    (buildRegistry true (["u", "v"] ++ ["w"])).get_id "u" =
      (buildRegistry true ["u", "v"]).get_id "u" :=
  (get_id_absent_iff_never_added true ["u", "v"] ["w"] "u").2 (by decide)

/-- Counterexample to C3 as stated: when the added string is already
present, `add` returns the id of the first occurrence, not the id of the
newly appended position.  Adding "x" to a registry already holding "x"
appends it (the list becomes ["x", "x"]) but returns the id 'a' of
position 0, while the id of the appended position 1 is 'b'. -/
theorem add_returns_first_occurrence_id :
    ((buildRegistry true ["x"]).add "x").1._list = ["x", "x"] ∧
    ((buildRegistry true ["x"]).add "x").2 = some (AffilId.letter "a") ∧
    letterId 1 = "b" ∧
    some (AffilId.letter "a") ≠ some (AffilId.letter "b") := by
  refine ⟨?_, ?_, by decide, by decide⟩
  · rw [buildRegistry_eq]; rfl
  · rw [buildRegistry_eq]; rfl

/-- C3 amended: `add` appends the string unconditionally as the last
entry, and returns the id derived from the position of the first
occurrence of the string in the updated list; when the string was not
already present this is the zero-based position of the newly appended
entry. -/
theorem add_appends_and_returns_new_id (b : Bool) (l : List String)
    (a : String) :
    ((buildRegistry b l).add a).1._list = l ++ [a] ∧
    (a ∉ l → ((buildRegistry b l).add a).2 =
      some (if b then AffilId.letter (letterId l.length)
            else AffilId.number (l.length + 1))) := by
  rw [buildRegistry_eq]
  constructor
  · rfl
  · intro hmem
    unfold AffiliationList.add AffiliationList.get_id
    simp only [findIndex_append_self a l hmem]
    by_cases hb : b <;> simp [hb]

/-- Concrete witness for `add_appends_and_returns_new_id`: adding "y" to a
letter-mode registry holding only "x" appends it and returns the id of
position 1. -/
theorem add_appends_and_returns_new_id_witness :
    ((buildRegistry true ["x"]).add "y").1._list = ["x"] ++ ["y"] ∧
    ((buildRegistry true ["x"]).add "y").2 =
      some (if true then AffilId.letter (letterId (["x"] : List String).length)
            else AffilId.number ((["x"] : List String).length + 1)) :=
  ⟨(add_appends_and_returns_new_id true ["x"] "y").1,
   (add_appends_and_returns_new_id true ["x"] "y").2 (by decide)⟩

/-- Model of Python's `re.split` with the single-character pattern `\s`
(src/a2tex.py line 110): the input is cut at every whitespace character,
keeping empty tokens; the empty input yields one empty token. -/
def pySplitWs : List Char → List (List Char)
  | [] => [[]]
  | c :: rest =>
    if pyIsSpace c then [] :: pySplitWs rest
    else
      match pySplitWs rest with
      | [] => [[c]]
      | t :: ts => (c :: t) :: ts

/-- Model of Python's `str.strip()`: drop whitespace from both ends. -/
def pyStrip (l : List Char) : List Char :=
  ((l.dropWhile pyIsSpace).reverse.dropWhile pyIsSpace).reverse

/-- Concatenation of a list of character lists (the `+=` accumulation of
src/a2tex.py lines 109-111). -/
def concatAll : List (List Char) → List Char
  | [] => []
  | t :: ts => t ++ concatAll ts

/-- Translation of `firstnames_to_initials` (src/a2tex.py lines 100-112):
split the input at every whitespace character, and for each token take the
first character of `token.capitalize()` followed by '.'.  Python's
`capitalize()` upper-cases the first character, so the contribution of a
nonempty token is its upper-cased first character and a dot; on an empty
token the subscript `[0]` raises `IndexError`, modelled as `none`.  The
accumulated string is finally stripped. -/
def firstnames_to_initials (firstnames : String) : Option String :=
  ((pySplitWs firstnames.data).mapM
      (fun (t : List Char) => t.head?.map (fun c => [c.toUpper, '.']))).map
    (fun parts => String.mk (pyStrip (concatAll parts)))

/-- C4 evaluated at its failing inputs: `firstnames_to_initials` is not
total.  It raises (modelled as `none`) on the empty string and on
"  mary  ", because `re.split` on the pattern matching a single whitespace
character produces empty tokens whose first character does not exist; a
single-space-separated input such as "jean paul" works and a plain "mary"
gives "M.". -/
theorem firstnames_to_initials_not_total :
    firstnames_to_initials "" = none ∧
    firstnames_to_initials "  mary  " = none ∧
    firstnames_to_initials "jean paul" = some "J.P." ∧
    firstnames_to_initials "mary" = some "M." := by
  refine ⟨by decide, by decide, by decide, by decide⟩

/-- Characters of the regex class `[&%\$#_{}]` in
`CHARS_TO_ESCAPE_PATTERN` (src/a2tex.py line 121). -/
def reservedChars : List Char :=
  ['&', '%', '$', '#', '_', '\x7b', '\x7d']

/-- Model of the phase-1 substitution
`CHARS_TO_ESCAPE_PATTERN.sub('\\\g<char>', string)` (src/a2tex.py
line 129): scan the string left to right; a reserved character whose
preceding character in the scanned string is not a backslash (the
look-behind, which always examines the original string) gets a backslash
inserted in front of it.  `prev` is the previously scanned character
(`none` at the start of the string). -/
def escapeScan (prev : Option Char) : List Char → List Char
  | [] => []
  | c :: rest =>
    if c ∈ reservedChars ∧ prev ≠ some '\\' then
      '\\' :: c :: escapeScan (some c) rest
    else
      c :: escapeScan (some c) rest

/-- Model of `re.sub` with a single-character literal pattern
(src/a2tex.py lines 131-132): replace every occurrence of `c` by `repl`. -/
def replChar (c : Char) (repl : List Char) : List Char → List Char
  | [] => []
  | x :: xs => (if x = c then repl else [x]) ++ replChar c repl xs

/-- Replacement text substituted for `~` (src/a2tex.py line 122): the
Python literal and `re.sub` replacement processing yield a single
backslash. -/
def tildeRepl : List Char :=
  "$\\textasciitilde$".data

/-- Replacement text substituted for `^` (src/a2tex.py line 123). -/
def circumflexRepl : List Char :=
  "$\\textasciicircum$".data

/-- Translation of `latex_escape` (src/a2tex.py lines 114-133): phase 1
inserts a backslash before each reserved character not already preceded
by one; phase 2 then replaces every `~` and every `^` by the
corresponding accent macro text, in the iteration order of
`SPECIAL_LATEX_CHARS`. -/
def latex_escape (string : String) : String :=
  String.mk
    (replChar '^' circumflexRepl
      (replChar '~' tildeRepl
        (escapeScan none string.data)))

theorem escapeScan_idem : ∀ (l : List Char) (p : Option Char),
    escapeScan p (escapeScan p l) = escapeScan p l := by
  intro l
  induction l with
  | nil => intro p; rfl
  | cons c rest ih =>
    intro p
    have hbs : ('\\' : Char) ∉ reservedChars := by decide
    by_cases h : c ∈ reservedChars ∧ p ≠ some '\\'
    · have h1 : ¬ (('\\' : Char) ∈ reservedChars ∧ p ≠ some '\\') :=
        fun hc => hbs hc.1
      have h2 : ¬ (c ∈ reservedChars ∧ (some '\\' : Option Char) ≠ some '\\') :=
        fun hc => hc.2 rfl
      simp only [escapeScan, if_pos h, if_neg h1, if_neg h2]
      rw [ih]
    · simp only [escapeScan, if_neg h]
      rw [ih]

theorem mem_escapeScan : ∀ (l : List Char) (p : Option Char) (c : Char),
    c ∈ escapeScan p l → c ∈ l ∨ c = '\\' := by
  intro l
  induction l with
  | nil =>
    intro p c h
    simp only [escapeScan] at h
    cases h
  | cons x rest ih =>
    intro p c h
    by_cases hx : x ∈ reservedChars ∧ p ≠ some '\\'
    · simp only [escapeScan, if_pos hx, List.mem_cons] at h
      rcases h with h | h | h
      · exact Or.inr h
      · exact Or.inl (by simp [h])
      · rcases ih (some x) c h with h2 | h2
        · exact Or.inl (List.mem_cons_of_mem x h2)
        · exact Or.inr h2
    · simp only [escapeScan, if_neg hx, List.mem_cons] at h
      rcases h with h | h
      · exact Or.inl (by simp [h])
      · rcases ih (some x) c h with h2 | h2
        · exact Or.inl (List.mem_cons_of_mem x h2)
        · exact Or.inr h2

theorem not_mem_escapeScan (c : Char) (hc : c ≠ '\\') :
    ∀ (l : List Char) (p : Option Char), c ∉ l → c ∉ escapeScan p l := by
  intro l p hmem hin
  rcases mem_escapeScan l p c hin with h | h
  · exact hmem h
  · exact hc h

theorem replChar_not_mem (c : Char) (repl : List Char) :
    ∀ l : List Char, c ∉ l → replChar c repl l = l := by
  intro l
  induction l with
  | nil => intro h; rfl
  | cons x xs ih =>
    intro h
    have hx : ¬ x = c := fun hcx => h (by simp [hcx])
    have hxs : c ∉ xs := fun hcx => h (List.mem_cons_of_mem x hcx)
    simp [replChar, hx, ih hxs]

/-- C5: on every input containing neither `~` nor `^`, `latex_escape` is
idempotent: the second application escapes none of the reserved
characters of the first application's output, since each of them is there
preceded by a backslash. -/
theorem latex_escape_idem_no_tilde_circumflex (s : String)
    (ht : '~' ∉ s.data) (hh : '^' ∉ s.data) :
    latex_escape (latex_escape s) = latex_escape s := by
  have ht1 := not_mem_escapeScan '~' (by decide) s.data none ht
  have hh1 := not_mem_escapeScan '^' (by decide) s.data none hh
  have e1 : latex_escape s = String.mk (escapeScan none s.data) := by
    unfold latex_escape
    rw [replChar_not_mem '~' tildeRepl _ ht1,
      replChar_not_mem '^' circumflexRepl _ hh1]
  have ht2 := not_mem_escapeScan '~' (by decide) (escapeScan none s.data) none ht1
  have hh2 := not_mem_escapeScan '^' (by decide) (escapeScan none s.data) none hh1
  rw [e1]
  show String.mk
      (replChar '^' circumflexRepl
        (replChar '~' tildeRepl (escapeScan none (escapeScan none s.data)))) = _
  rw [replChar_not_mem '~' tildeRepl _ ht2,
    replChar_not_mem '^' circumflexRepl _ hh2, escapeScan_idem]

/-- Concrete witness for `latex_escape_idem_no_tilde_circumflex` at the
spec's worked example, which is free of tilde and circumflex. -/
theorem latex_escape_idem_no_tilde_circumflex_witness :
    latex_escape (latex_escape "50% & #1_\x7bx\x7d") =
      latex_escape "50% & #1_\x7bx\x7d" :=
  latex_escape_idem_no_tilde_circumflex "50% & #1_\x7bx\x7d"
    (by decide) (by decide)

/-- Model of `re.sub('\s', '~', name)` (src/a2tex.py line 188): scan the
name and substitute every single whitespace character by `~`. -/
def reSubWs : List Char → List Char
  | [] => []
  | c :: rest => (if pyIsSpace c then '~' else c) :: reSubWs rest

/-- Display-name serialization applied to each author name just before it
is written to the LaTeX file (src/a2tex.py line 188). -/
def nameForDisplay (name : String) : String :=
  String.mk (reSubWs name.data)

/-- Modelled from the spec: run-collapsing whitespace substitution, the
behavior the spec ascribes to `nameForDisplay` ("replace every whitespace
run with a non-breaking-space marker").  The flag records whether the
previous character was whitespace, so a whole run yields one `~`. -/
def specCollapseWsScan : Bool → List Char → List Char
  | _, [] => []
  | prevWs, c :: rest =>
    if pyIsSpace c then
      if prevWs then specCollapseWsScan true rest
      else '~' :: specCollapseWsScan true rest
    else c :: specCollapseWsScan false rest

/-- Modelled from the spec: `nameForDisplay` as the spec describes it,
collapsing each maximal whitespace run to a single `~`. -/
def specNameForDisplay (name : String) : String :=
  String.mk (specCollapseWsScan false name.data)

/-- Author record as built by `Author.__init__` after its normalization
(src/a2tex.py lines 42-52). -/
structure Author where
  name : String
  affiliation_id : Option AffilId
  orcid : Option String
deriving DecidableEq, Repr

/-- Translation of `Author.__init__` (src/a2tex.py lines 46-52): the
orcid attribute is set to the argument only when it is truthy; Python's
`None` and the empty string are both falsy, so either one leaves the
attribute `None`. -/
def mkAuthor (name : String) (affiliation_id : Option AffilId)
    (orcid : Option String) : Author :=
  ⟨name, affiliation_id,
   match orcid with
   | none => none
   | some s => if s = "" then none else some s⟩

/-- Rendering of the affiliation id inside an f-string: letter ids print
as themselves, numeric ids in decimal, and Python's `None` prints as
"None" (src/a2tex.py line 189). -/
def renderAffilId : Option AffilId → String
  | none => "None"
  | some (AffilId.letter s) => s
  | some (AffilId.number n) => toString n

/-- ORCID fragment of the author line (src/a2tex.py lines 184-187): empty
when the author has no orcid, else the `\orcidlink` macro around it. -/
def orcidLink : Option String → String
  | none => ""
  | some o => "\\orcidlink\x7b" ++ o ++ "\x7d"

/-- LaTeX author line written for one author (src/a2tex.py lines 183-189):
the f-string `\author[<id>]{<name-with-~><orcid-link>}` plus the newline,
where the name has every whitespace character substituted by `~`. -/
def authorLine (a : Author) : String :=
  "\\author[" ++ renderAffilId a.affiliation_id ++ "]\x7b" ++
    nameForDisplay a.name ++ orcidLink a.orcid ++ "\x7d\n"

/-- Default arXiv author-line prefix constant (src/a2tex.py line 37). -/
def ARXIV_AUTHORS_PREFIX_DEFAULT : String :=
  "HEP Software Foundation: "

/-- Single-line arXiv artifact (src/a2tex.py lines 196-199): the f-string
concatenates the module constant `ARXIV_AUTHORS_PREFIX_DEFAULT` — not the
parsed option value, which the first argument records and line 198 never
reads — with the comma-space-joined author names in list order. -/
def arxivLine (_arxiv_authors_pfx_option : String) (author_list : List Author) :
    String :=
  ARXIV_AUTHORS_PREFIX_DEFAULT ++
    String.intercalate ", " (author_list.map Author.name)

theorem reSubWs_eq_map : ∀ l : List Char,
    reSubWs l = l.map (fun c => if pyIsSpace c then '~' else c) := by
  intro l
  induction l with
  | nil => rfl
  | cons c rest ih => simp [reSubWs, ih]

/-- Counterexample to C6 as stated: a run of two spaces is replaced by
two `~` markers, not one.  On "a  b" the serialization yields "a~~b",
while the run-collapsing behavior the claim describes yields "a~b". -/
theorem nameForDisplay_run_not_collapsed :
    nameForDisplay "a  b" = "a~~b" ∧
    specNameForDisplay "a  b" = "a~b" ∧
    ("a~~b" : String) ≠ "a~b" := by
  refine ⟨by decide, by decide, by decide⟩

/-- C6 amended: the display-name serialization replaces every single
whitespace character of the name with one `~` marker, so a maximal run of
k whitespace characters yields k consecutive `~` (one `~` only for runs
of length one). -/
theorem nameForDisplay_charwise :
    (∀ s : String,
      (nameForDisplay s).data =
        s.data.map (fun c => if pyIsSpace c then '~' else c)) ∧
    (∀ k : Nat,
      nameForDisplay (String.mk (List.replicate k ' ')) =
        String.mk (List.replicate k '~')) := by
  constructor
  · intro s
    show (reSubWs s.data) = _
    exact reSubWs_eq_map s.data
  · intro k
    show String.mk (reSubWs (List.replicate k ' ')) = _
    rw [reSubWs_eq_map, List.map_replicate]
    rfl

/-- Counterexample to C7 as stated: the program never applies
`latex_escape` to the author name.  For the author "A & B" the emitted
line keeps the bare ampersand, and differs from the line that either
order of composing `latex_escape` with the whitespace substitution would
produce. -/
theorem authorLine_not_escaped :
    authorLine (mkAuthor "A & B" (some (AffilId.letter "a")) none) =
      "\\author[a]\x7bA~&~B\x7d\n" ∧
    latex_escape (nameForDisplay "A & B") =
      "A$\\textasciitilde$\\&$\\textasciitilde$B" ∧
    nameForDisplay (latex_escape "A & B") = "A~\\&~B" ∧
    ("\\author[a]\x7bA~&~B\x7d\n" : String) ≠
      "\\author[a]\x7b" ++ latex_escape (nameForDisplay "A & B") ++ "\x7d\n" ∧
    ("\\author[a]\x7bA~&~B\x7d\n" : String) ≠
      "\\author[a]\x7b" ++ nameForDisplay (latex_escape "A & B") ++ "\x7d\n" := by
  refine ⟨by decide, by decide, by decide, by decide, by decide⟩

/-- C7 amended: for every author record the LaTeX author line embeds the
display name verbatim except that each whitespace character becomes `~`,
followed by the ORCID fragment; `latex_escape` is not applied to it. -/
theorem authorLine_uses_raw_name (name : String) (affid : Option AffilId)
    (o : Option String) :
    authorLine ⟨name, affid, o⟩ =
      "\\author[" ++ renderAffilId affid ++ "]\x7b" ++
        String.mk (name.data.map (fun c => if pyIsSpace c then '~' else c)) ++
        orcidLink o ++ "\x7d\n" := by
  unfold authorLine nameForDisplay
  rw [reSubWs_eq_map]

/-- C8 evaluated at its failing input: the arXiv line is built with the
module constant, so a configured value "X: " is ignored; the output for a
single author "A. Uthor" starts with the default constant, not with the
configured value, and the line does not depend on the option argument at
all. -/
theorem arxivLine_ignores_configured_value :
    arxivLine "X: " [mkAuthor "A. Uthor" (some (AffilId.letter "a")) none] =
      "HEP Software Foundation: A. Uthor" ∧
    ("HEP Software Foundation: A. Uthor" : String) ≠ "X: " ++ "A. Uthor" ∧
    (∀ (p q : String) (author_list : List Author),
      arxivLine p author_list = arxivLine q author_list) ∧
    ARXIV_AUTHORS_PREFIX_DEFAULT = "HEP Software Foundation: " := by
  refine ⟨by decide, by decide, fun p q author_list => rfl, rfl⟩

/-- Exit-status constant for success (src/a2tex.py line 29). -/
def EXIT_STATUS_SUCCESS : Nat := 0

/-- Exit-status constant for option errors (src/a2tex.py line 30). -/
def EXIT_STATUS_OPTION_ERROR : Nat := 3

/-- Exit-status constant for runtime failures (src/a2tex.py line 31). -/
def EXIT_STATUS_FAILURE : Nat := 5

/-- The three ways a run of the program can end. -/
inductive RunOutcome where
  | success
  | optionError
  | runtimeFailure
deriving DecidableEq, Repr

/-- Value returned by `main` for each outcome, read off src/a2tex.py: on
the option-error branch `main` returns `EXIT_STATUS_OPTION_ERROR`
(line 156); on success it falls off the end and returns Python's `None`
(line 199); on a runtime failure the exception propagates out of `main`
without a return, also modelled as `none`. -/
def mainReturnValue : RunOutcome → Option Nat
  | RunOutcome.success => none
  | RunOutcome.optionError => some EXIT_STATUS_OPTION_ERROR
  | RunOutcome.runtimeFailure => none

/-- Exit-status argument that the script itself passes to an exit call
after the version check, as a function of the value `main` returned: the
module level runs the bare statement `main()` (src/a2tex.py lines
202-203), discarding the returned value, and the script contains no
`sys.exit` call past line 22 — so no returned value ever reaches an exit
call. -/
def topLevelExitArg (_returned_from_main : Option Nat) : Option Nat :=
  none

/-- C9 evaluated against the source: the three documented constants are
pairwise distinct, but the script never passes any of them to an exit
call — `main`'s return value (including the option-error value 3) is
discarded by the bare top-level call, and `EXIT_STATUS_FAILURE` is never
returned on any outcome — so the documented statuses do not become the
process exit codes. -/
theorem exit_status_constants_unused :
    (EXIT_STATUS_SUCCESS ≠ EXIT_STATUS_OPTION_ERROR ∧
     EXIT_STATUS_OPTION_ERROR ≠ EXIT_STATUS_FAILURE ∧
     EXIT_STATUS_SUCCESS ≠ EXIT_STATUS_FAILURE) ∧
    (∀ r : RunOutcome, topLevelExitArg (mainReturnValue r) = none) ∧
    (∀ r : RunOutcome, mainReturnValue r ≠ some EXIT_STATUS_FAILURE) := by
  refine ⟨⟨by decide, by decide, by decide⟩, fun r => rfl, fun r => ?_⟩
  cases r <;> decide

/-- C10: a record whose ORCID field is the empty string builds the same
author as a record with no ORCID at all — the stored orcid is `none` —
and its author line is the no-ORCID line; for a concrete such author the
line contains no `\orcidlink` occurrence. -/
theorem empty_orcid_treated_as_absent :
    (∀ (name : String) (affid : Option AffilId),
      mkAuthor name affid (some "") = mkAuthor name affid none) ∧
    (∀ (name : String) (affid : Option AffilId),
      (mkAuthor name affid (some "")).orcid = none) ∧
    (∀ (name : String) (affid : Option AffilId),
      authorLine (mkAuthor name affid (some "")) =
        authorLine (mkAuthor name affid none)) ∧
    ¬ List.IsInfix "\\orcidlink".data
        (authorLine (mkAuthor "Jane Doe" (some (AffilId.letter "a"))
          (some ""))).data := by
  have h1 : ∀ (name : String) (affid : Option AffilId),
      mkAuthor name affid (some "") = mkAuthor name affid none := by
    intro name affid
    simp [mkAuthor]
  refine ⟨h1, fun name affid => by rw [h1]; rfl,
    fun name affid => by rw [h1], ?_⟩
  decide
